import Mathlib

/-!
Verification development for the macro templating engine of the repository
(`public/scripts/macros/MacroEngine.js` — provided as `src/unnamed/part_000` —,
`public/scripts/macros/MacroParser.js`, and `public/scripts/macros.js`).

The engine pipeline is `parseDocument(input, macros)`:
tokenize → parse a CST (document → (plaintext | macro)*, macro → "{{" identifier
arguments? "}}") → on any parse error return the input unchanged → otherwise walk
the CST with a visitor that resolves every macro against the ordered rule list and
reassembles the final string.

Conventions of the embedding:
* JavaScript strings are Lean `String`s; character offsets are `Nat`s.
* Fallible rule callbacks (`replace` may throw) are `Except String JSValue`.
* Recursive procedures take an explicit fuel argument so that every definition is
  a computable structural recursion; callers pass fuel large enough that it is
  never exhausted on any actual input (depth is bounded by input length).
-/

/-- JavaScript runtime values as far as the macro engine observes them: the
`replace` callback of a rule may return any of these, and the engine or the
registry coerces them to strings. -/
inductive JSValue where
  | str (s : String)
  | nullv
  | undef
  | bool (b : Bool)
  | num (n : Int)
  | promise
  | func
  | date (epochMs : Int)
  | obj (fields : List (String × String))

/-- The JS built-in `Date.prototype.toISOString`, modelled at its interface as a
deterministic, injective textual rendering of the date's epoch-milliseconds
value (the engine only relies on it being a fixed normalized timestamp). -/
def dateToISOString (epochMs : Int) : String :=
  "iso-timestamp(" ++ toString epochMs ++ ")"

/-- The JS built-in `JSON.stringify`, modelled at its interface on flat objects
(a list of string key/value fields, serialized in insertion order). -/
def jsonStringify (fields : List (String × String)) : String :=
  "\x7b" ++ String.intercalate ","
    (fields.map (fun kv => "\x22" ++ kv.1 ++ "\x22:\x22" ++ kv.2 ++ "\x22")) ++ "\x7d"

/-- The JS `String(value)` coercion applied by the engine to a rule's return
value (`src/unnamed/part_000`, `return String(result)`), modelled on the value
kinds of `JSValue`. -/
def jsString : JSValue → String
  | .str s => s
  | .nullv => "null"
  | .undef => "undefined"
  | .bool true => "true"
  | .bool false => "false"
  | .num n => toString n
  | .promise => "[object Promise]"
  | .func => "[function]"
  | .date epochMs => "[date " ++ toString epochMs ++ "]"
  | .obj _ => "[object Object]"

/-- `MacrosParser.sanitizeMacroValue` from `public/scripts/macros.js`:
type-checks a macro value and returns a sanitized string version of it.
The branches mirror the source order: string → as-is; null/undefined → "";
Promise → warn + ""; function → warn + ""; Date → toISOString; object →
JSON.stringify; anything else → String(value). -/
def sanitizeMacroValue : JSValue → String
  | .str s => s
  | .nullv => ""
  | .undef => ""
  | .promise => ""
  | .func => ""
  | .date epochMs => dateToISOString epochMs
  | .obj fields => jsonStringify fields
  | v => jsString v

/-- The value-coercion table exactly as the specification words it (§4.4):
"strings pass through unchanged; null/absent become empty string; a function
value, unresolved asynchronous value, or an unsupported object type is rejected
with a warning and coerced to empty string; a date/time value is coerced to a
fixed normalized textual timestamp; generic objects are serialized to their
structural textual form." Stated as a second definition to be compared with the
source-derived `sanitizeMacroValue`. -/
def specValueCoercion : JSValue → Option String
  | .str s => some s
  | .nullv => some ""
  | .undef => some ""
  | .func => some ""
  | .promise => some ""
  | .date epochMs => some (dateToISOString epochMs)
  | .obj fields => some (jsonStringify fields)
  | _ => none

/-! ## Tokens and the lexer

`MacroLexer.js` is imported by both the engine and the parser but is not among
the provided source files, so the tokenizer below is modelled from the
specification (see the doc comment on `tokenize`). -/

/-- Token kinds produced by the lexer, named after the token types the parser
and the evaluator consume: `Macro.Start` ("{{"), `Macro.End` ("}}"),
`Macro.Identifier` (the macro name), `Args.DoubleColon` ("::"), `Args.Colon`
(":"), `Identifier` (an identifier-class run inside arguments), `Unknown` (a
single otherwise-unclassified character), and `Plaintext` (a maximal run of
text outside any macro). -/
inductive TokKind where
  | macroStart
  | macroEnd
  | macroIdent
  | dColon
  | colon
  | ident
  | unknown
  | plaintext
deriving DecidableEq

/-- A lexer token: kind, source image and character start offset. -/
structure Token where
  kind : TokKind
  image : String
  startOffset : Nat

/-- Identifier-class characters (restricted charset: letters, digits,
underscore — no braces, colons or whitespace). -/
def isIdentChar (c : Char) : Bool :=
  c.isAlphanum || c = '_'

/-- Whitespace characters skipped inside macro delimiters. -/
def isWsChar (c : Char) : Bool :=
  c = ' ' || c = '\t' || c = '\n' || c = '\r'

/-- The JS `String.prototype.trim`: strips leading and trailing whitespace. -/
def jsTrim (s : String) : String :=
  String.mk (((s.data.dropWhile isWsChar).reverse.dropWhile isWsChar).reverse)

/-- Splits off the maximal plaintext run: all characters up to (excluding) the
next "{{" opening delimiter. -/
def plainRun : List Char → List Char × List Char
  | [] => ([], [])
  | '{' :: '{' :: rest => ([], '{' :: '{' :: rest)
  | c :: rest =>
    let r := plainRun rest
    (c :: r.1, r.2)

/-- Lexer modes: `plain` outside any macro, `hdr` right after an opening "{{"
(expecting the macro identifier), `args` inside a macro after its identifier. -/
inductive LexMode where
  | plain
  | hdr
  | args

/-- One step of the modal lexer; consumes at least one character per call, so a
fuel of `input.length + 1` is never exhausted. The mode stack records the mode
to return to when a "}}" closes the current macro (macros nest inside argument
text). -/
def lexGo : Nat → List Char → Nat → LexMode → List LexMode → List Token
  | 0, _, _, _, _ => []
  | _ + 1, [], _, _, _ => []
  | fuel + 1, cs, pos, .plain, stack =>
    match cs with
    | '{' :: '{' :: rest =>
      ⟨.macroStart, "\x7b\x7b", pos⟩ :: lexGo fuel rest (pos + 2) .hdr (.plain :: stack)
    | cs =>
      let r := plainRun cs
      ⟨.plaintext, String.mk r.1, pos⟩ :: lexGo fuel r.2 (pos + r.1.length) .plain stack
  | fuel + 1, c :: rest, pos, .hdr, stack =>
    if isWsChar c then
      lexGo fuel rest (pos + 1) .hdr stack
    else
      match c :: rest with
      | '{' :: '{' :: rest2 =>
        ⟨.macroStart, "\x7b\x7b", pos⟩ :: lexGo fuel rest2 (pos + 2) .hdr (.hdr :: stack)
      | '}' :: '}' :: rest2 =>
        match stack with
        | m :: stack2 => ⟨.macroEnd, "\x7d\x7d", pos⟩ :: lexGo fuel rest2 (pos + 2) m stack2
        | [] => ⟨.macroEnd, "\x7d\x7d", pos⟩ :: lexGo fuel rest2 (pos + 2) .plain []
      | ':' :: ':' :: rest2 =>
        ⟨.dColon, "::", pos⟩ :: lexGo fuel rest2 (pos + 2) .args stack
      | ':' :: rest2 =>
        ⟨.colon, ":", pos⟩ :: lexGo fuel rest2 (pos + 1) .args stack
      | c2 :: rest2 =>
        if isIdentChar c2 then
          let r := (c2 :: rest2).span isIdentChar
          ⟨.macroIdent, String.mk r.1, pos⟩ :: lexGo fuel r.2 (pos + r.1.length) .args stack
        else
          ⟨.unknown, String.mk [c2], pos⟩ :: lexGo fuel rest2 (pos + 1) .args stack
      | [] => []
  | fuel + 1, c :: rest, pos, .args, stack =>
    if isWsChar c then
      lexGo fuel rest (pos + 1) .args stack
    else
      match c :: rest with
      | '{' :: '{' :: rest2 =>
        ⟨.macroStart, "\x7b\x7b", pos⟩ :: lexGo fuel rest2 (pos + 2) .hdr (.args :: stack)
      | '}' :: '}' :: rest2 =>
        match stack with
        | m :: stack2 => ⟨.macroEnd, "\x7d\x7d", pos⟩ :: lexGo fuel rest2 (pos + 2) m stack2
        | [] => ⟨.macroEnd, "\x7d\x7d", pos⟩ :: lexGo fuel rest2 (pos + 2) .plain []
      | ':' :: ':' :: rest2 =>
        ⟨.dColon, "::", pos⟩ :: lexGo fuel rest2 (pos + 2) .args stack
      | ':' :: rest2 =>
        ⟨.colon, ":", pos⟩ :: lexGo fuel rest2 (pos + 1) .args stack
      | c2 :: rest2 =>
        if isIdentChar c2 then
          let r := (c2 :: rest2).span isIdentChar
          ⟨.ident, String.mk r.1, pos⟩ :: lexGo fuel r.2 (pos + r.1.length) .args stack
        else
          ⟨.unknown, String.mk [c2], pos⟩ :: lexGo fuel rest2 (pos + 1) .args stack
      | [] => []

/-- Modelled from the spec: `MacroLexer.tokenize` (file `MacroLexer.js`, which
is imported by the engine and the parser but missing from the provided
sources). Per spec §3/§4.1 the lexer is total, recognizes "{{"/"}}" as atomic
delimiters, "::" greedily before ":" (maximal munch), identifier runs, a
single-character `Unknown` catch-all, plaintext as a maximal run outside any
macro span, and skips whitespace inside macro delimiters (matching the
repository's own parser tests, which show no whitespace tokens inside
arguments). -/
def tokenize (input : String) : List Token :=
  lexGo (input.length + 1) input.data 0 .plain []

/-! ## Concrete syntax tree

Mirrors the CST shape produced by the grammar in
`public/scripts/macros/MacroParser.js`: document → (plaintext | macro)*,
macro → "{{" identifier arguments? "}}", arguments → separator then a
"::"-separated non-empty argument list, argument → non-empty sequence of
(nested macro | identifier | unknown | ":"). -/

/-- Which separator token followed the macro identifier ("::" or ":"). -/
inductive SepKind where
  | dcolon
  | scolon
deriving DecidableEq

mutual

inductive MacroNode where
  | mk (identifier : String) (startOffset : Nat) (args : Option ArgsNode)

inductive ArgsNode where
  | mk (sep : SepKind) (items : List ArgNode)

inductive ArgNode where
  | mk (frags : List Frag)

inductive Frag where
  | fnested (m : MacroNode)
  | fident (s : String)
  | funknown (s : String)
  | fcolon

end

def MacroNode.identifier : MacroNode → String
  | .mk i _ _ => i

def MacroNode.startOffset : MacroNode → Nat
  | .mk _ o _ => o

def MacroNode.args : MacroNode → Option ArgsNode
  | .mk _ _ a => a

def ArgsNode.items : ArgsNode → List ArgNode
  | .mk _ l => l

def ArgNode.frags : ArgNode → List Frag
  | .mk f => f

/-- A document CST item: a plaintext token or a parsed macro subtree. -/
inductive DocItem where
  | plainItem (s : String) (off : Nat)
  | macroItem (m : MacroNode)

/-- The document CST: items in source order. -/
structure DocNode where
  items : List DocItem

/-! ## Parser

Recursive descent over the token stream, following the chevrotain grammar of
`MacroParser.js`. Chevrotain records recognition exceptions in
`parser.errors`; the embedding returns `Except`, a parse error standing for a
non-empty error list. -/

/-- Peeks the kind of the next token. -/
def peekKind : List Token → Option TokKind
  | [] => none
  | t :: _ => some t.kind

/-- `CONSUME(tok)`: consumes one token of the given kind or reports a
`MismatchedTokenException`-style error. -/
def expectTok (k : TokKind) (name : String) (toks : List Token) :
    Except String (Token × List Token) :=
  match toks with
  | [] => .error ("Expecting token of type --> " ++ name ++ " <-- but found --> end of input <--")
  | t :: rest =>
    if t.kind = k then .ok (t, rest)
    else .error ("Expecting token of type --> " ++ name ++ " <-- but found --> " ++ t.image ++ " <--")

/-- The fragment loop of the `argument` rule: greedily collects nested macros,
identifier tokens, unknown tokens and single colons (in source order), stopping
at the first token outside those alternatives. `pm` parses one nested macro. -/
def parseFrags (pm : List Token → Except String (MacroNode × List Token)) :
    Nat → List Token → Except String (List Frag × List Token)
  | 0, _ => .error "max fragment iterations exceeded"
  | fuel + 1, toks =>
    match toks with
    | [] => .ok ([], [])
    | t :: rest =>
      match t.kind with
      | .macroStart => do
        let pr ← pm toks
        let fr ← parseFrags pm fuel pr.2
        .ok (.fnested pr.1 :: fr.1, fr.2)
      | .ident => do
        let fr ← parseFrags pm fuel rest
        .ok (.fident t.image :: fr.1, fr.2)
      | .unknown => do
        let fr ← parseFrags pm fuel rest
        .ok (.funknown t.image :: fr.1, fr.2)
      | .colon => do
        let fr ← parseFrags pm fuel rest
        .ok (.fcolon :: fr.1, fr.2)
      | _ => .ok ([], toks)

/-- The `argument` rule: `AT_LEAST_ONE` fragment; zero fragments is an
`EarlyExitException`. -/
def parseArgument (pm : List Token → Except String (MacroNode × List Token))
    (toks : List Token) : Except String (ArgNode × List Token) := do
  let fr ← parseFrags pm (toks.length + 1) toks
  if fr.1.isEmpty then
    .error "Expecting: expecting at least one iteration (argument fragments)"
  else
    .ok (.mk fr.1, fr.2)

/-- The separator-repetition loop of the `arguments` rule: while the next token
is "::", consume it and parse one more argument. -/
def parseArgsTail (pm : List Token → Except String (MacroNode × List Token)) :
    Nat → List Token → Except String (List ArgNode × List Token)
  | 0, _ => .error "max argument iterations exceeded"
  | fuel + 1, toks =>
    match toks with
    | t :: rest =>
      if t.kind = .dColon then do
        let ar ← parseArgument pm rest
        let tl ← parseArgsTail pm fuel ar.2
        .ok (ar.1 :: tl.1, tl.2)
      else
        .ok ([], toks)
    | [] => .ok ([], [])

/-- The `arguments` rule: a "::" or ":" separator token, then
`AT_LEAST_ONE_SEP` (separated by "::") arguments. -/
def parseArgumentsR (pm : List Token → Except String (MacroNode × List Token))
    (toks : List Token) : Except String (ArgsNode × List Token) := do
  let sr ← (match toks with
    | t :: rest =>
      if t.kind = .dColon then .ok ((SepKind.dcolon, rest) : SepKind × List Token)
      else if t.kind = .colon then .ok (SepKind.scolon, rest)
      else .error "Expecting: one of :: or : (arguments separator)"
    | [] => .error "Expecting: one of :: or : (arguments separator)")
  let ar ← parseArgument pm sr.2
  let tl ← parseArgsTail pm (ar.2.length + 1) ar.2
  .ok (.mk sr.1 (ar.1 :: tl.1), tl.2)

/-- The `macro` rule: "{{", identifier, optional arguments (entered when the
lookahead is "::" or ":"), "}}". The fuel bounds the nesting depth of macros
inside arguments. -/
def parseMacro : Nat → List Token → Except String (MacroNode × List Token)
  | 0, _ => .error "macro nesting too deep"
  | fuel + 1, toks => do
    let st ← expectTok .macroStart "Macro.Start" toks
    let idt ← expectTok .macroIdent "Macro.Identifier" st.2
    let ar ← (match peekKind idt.2 with
      | some .dColon => (parseArgumentsR (parseMacro fuel) idt.2).map
          (fun p => ((some p.1, p.2) : Option ArgsNode × List Token))
      | some .colon => (parseArgumentsR (parseMacro fuel) idt.2).map
          (fun p => (some p.1, p.2))
      | _ => .ok (none, idt.2))
    let en ← expectTok .macroEnd "Macro.End" ar.2
    .ok (.mk idt.1.image st.1.startOffset ar.1, en.2)

/-- The `document` rule: `MANY(Plaintext | macro)`; a leftover token that fits
neither alternative is a `NotAllInputParsedException`. -/
def parseDocItems : Nat → List Token → Except String (List DocItem)
  | 0, _ => .error "max document iterations exceeded"
  | fuel + 1, toks =>
    match toks with
    | [] => .ok []
    | t :: rest =>
      match t.kind with
      | .plaintext => do
        let items ← parseDocItems fuel rest
        .ok (.plainItem t.image t.startOffset :: items)
      | .macroStart => do
        let pr ← parseMacro (toks.length + 1) toks
        let items ← parseDocItems fuel pr.2
        .ok (.macroItem pr.1 :: items)
      | _ => .error "Redundant input, expecting EOF but found extra tokens"

/-- Tokenizes the input and runs the `document` start rule
(`MacroEngine.parseDocument` drives `MacroLexer.tokenize` and
`parser.document()`); an `.error` stands for chevrotain's non-empty
`parser.errors` list. -/
def parseCst (input : String) : Except String DocNode :=
  let toks := tokenize input
  (parseDocItems (toks.length + 1) toks).map DocNode.mk

/-- `true` iff the parser reported no errors for the input. -/
def parseSucceeds (input : String) : Bool :=
  match parseCst input with
  | .ok _ => true
  | .error _ => false

/-! ## Macro rules and the evaluator visitor

From `src/unnamed/part_000` (`MacroEvaluatorVisitor`) and the `Macro` typedef
of `public/scripts/macros.js`. -/

/-- A macro rule's name: a single name or a list of aliases
(`macro.name` is a string or an array of strings). -/
inductive MacroName where
  | single (s : String)
  | aliases (names : List String)

/-- `Array.isArray(macro.name) ? macro.name.includes(identifier) :
macro.name === identifier`. -/
def nameMatches : MacroName → String → Bool
  | .single s, identifier => s == identifier
  | .aliases l, identifier => l.contains identifier

/-- The `MacroReplaceArgs` object handed to a rule's `replace` callback:
evaluated argument strings, the macro's character offset in the document, and
the full unprocessed document. -/
structure MacroReplaceArgs where
  args : List String
  offset : Nat
  document : String

/-- A macro rule `{name, replace}`; a thrown JS exception is an `.error`. -/
structure MacroRule where
  name : MacroName
  replace : MacroReplaceArgs → Except String JSValue

/-- `macros.find(macro => ...)`: the first rule in list order whose name
equals, or whose alias list contains, the identifier. -/
def resolveRule (rules : List MacroRule) (identifier : String) : Option MacroRule :=
  rules.find? (fun m => nameMatches m.name identifier)

/-- JS `parts.join('')` / `nodes.map(n => n.content).join('')`. -/
def joinAll : List String → String
  | [] => ""
  | [s] => s
  | s :: rest => s ++ joinAll rest

/-- Insertion step for sorting evaluation fragments by start offset. -/
def sortInsert (x : Nat × String) : List (Nat × String) → List (Nat × String)
  | [] => [x]
  | y :: ys => if x.1 ≤ y.1 then x :: y :: ys else y :: sortInsert x ys

/-- `nodes.sort((a, b) => a.startOffset - b.startOffset)`: sorts the collected
content fragments by their start offset in the original document. -/
def sortByOffset : List (Nat × String) → List (Nat × String)
  | [] => []
  | x :: xs => sortInsert x (sortByOffset xs)

/-- The literal re-serialization of an unresolved or failed macro:
`'{{' + identifier + (args.length > 0 ? '::' + args.join('::') : '') + '}}'`,
built from the already-evaluated argument strings. -/
def serializeMacro (identifier : String) (args : List String) : String :=
  "\x7b\x7b" ++ identifier ++
    (if args.length > 0 then "::" ++ String.intercalate "::" args else "") ++
    "\x7d\x7d"

/-- The visitor's `argument(ctx)` method: chevrotain groups an argument's
children by kind, and the visitor pushes the groups in a fixed order — first
all nested macros' evaluated results, then all identifier images, then all
unknown-character images, then all colon images (each group in source order) —
joins them and trims the result. `evalM` evaluates one nested macro. -/
def evalOneArgument (evalM : MacroNode → String) (a : ArgNode) : String :=
  let ms := a.frags.filterMap (fun f => match f with
    | .fnested m => some (evalM m)
    | _ => none)
  let ids := a.frags.filterMap (fun f => match f with
    | .fident s => some s
    | _ => none)
  let uks := a.frags.filterMap (fun f => match f with
    | .funknown s => some s
    | _ => none)
  let cols := a.frags.filterMap (fun f => match f with
    | .fcolon => some ":"
    | _ => none)
  jsTrim (joinAll (ms ++ ids ++ uks ++ cols))

/-- The visitor's `arguments(ctx)` method: evaluates each argument in order
(`ctx.arguments ? this.visit(ctx.arguments) : []` at the macro level). -/
def evalMacroArgs (evalM : MacroNode → String) (m : MacroNode) : List String :=
  match m.args with
  | none => []
  | some a => a.items.map (evalOneArgument evalM)

/-- The visitor's `macro(ctx)` method: evaluate the arguments, resolve the
identifier against the rule list; on a match invoke `replace` with
`{args, offset, document}` and coerce the result with `String(...)`; on a
thrown error, or when no rule matches, substitute the literal
re-serialization of the macro built from the evaluated arguments. The fuel
bounds nesting depth (callers pass more than the subtree's depth). -/
def evalMacroNode (rules : List MacroRule) (doc : String) : Nat → MacroNode → String
  | 0, _ => ""
  | fuel + 1, m =>
    let args := evalMacroArgs (evalMacroNode rules doc fuel) m
    match resolveRule rules m.identifier with
    | none => serializeMacro m.identifier args
    | some r =>
      match r.replace ⟨args, m.startOffset, doc⟩ with
      | .ok v => jsString v
      | .error _ => serializeMacro m.identifier args

/-- The visitor's `document(ctx)` method: collect all plaintext fragments, then
all evaluated macro fragments (each tagged with its start offset), sort by
offset and join. -/
def evalDocNode (rules : List MacroRule) (doc : String) (d : DocNode) : String :=
  let pnodes := d.items.filterMap (fun it => match it with
    | .plainItem s off => some (off, s)
    | _ => none)
  let mnodes := d.items.filterMap (fun it => match it with
    | .macroItem m => some (m.startOffset, evalMacroNode rules doc (doc.length + 1) m)
    | _ => none)
  joinAll ((sortByOffset (pnodes ++ mnodes)).map Prod.snd)

/-- `MacroEngine.parseDocument(input, macros)` from `src/unnamed/part_000`:
tokenize and parse; if the parser reported any errors, return the input
unchanged; otherwise evaluate the CST and return `result || input` (the JS
falsy check: an empty evaluation result falls back to the original input). -/
def parseDocument (input : String) (rules : List MacroRule) : String :=
  match parseCst input with
  | .error _ => input
  | .ok d =>
    let result := evalDocNode rules input d
    if result = "" then input else result

/-! ## The registry's env rules (from `evaluateMacros` in `public/scripts/macros.js`) -/

/-- An env-object entry: a plain value or a zero/one-argument function invoked
lazily with the per-evaluation nonce. -/
inductive EnvValue where
  | value (v : JSValue)
  | fn (f : String → JSValue)

/-- The `envReplace` closure of `evaluateMacros`: call the entry if it is a
function (passing the nonce), then sanitize the result with
`MacrosParser.sanitizeMacroValue`. -/
def envReplaceValue (param : EnvValue) (nonce : String) : String :=
  sanitizeMacroValue (match param with
    | .value v => v
    | .fn f => f nonce)

/-- The rule pushed onto `envMacros` for one env variable:
`{name: varName, replace: envReplace}`. -/
def envMacroRule (key : String) (param : EnvValue) (nonce : String) : MacroRule :=
  ⟨.single key, fun _ => .ok (.str (envReplaceValue param nonce))⟩

/-! ## The seeded `pick` built-in (from `getPickReplaceMacro` in
`public/scripts/macros.js`) -/

/-- Modelled from the spec: `getStringHash` lives in `public/scripts/utils.js`,
which is not among the provided sources; the spec only requires a stable
(deterministic) string hash, modelled here as a djb2-style fold. -/
def getStringHash (s : String) : Nat :=
  s.data.foldl (fun h c => (h * 33 + c.toNat) % 4294967296) 5381

/-- The external `seedrandom` library, modelled at its interface: the first
32-bit output of a PRNG deterministically seeded with the given number
(`Math.floor(rng() * n)` is then `mix32 seed * n / 2^32`). -/
def mix32 (x : Nat) : Nat :=
  let a := (x + 2654435769) % 4294967296
  let b := (a ^^^ (a / 65536)) * 2246822519 % 4294967296
  let c := (b ^^^ (b / 8192)) * 3266489917 % 4294967296
  (c ^^^ (c / 65536)) % 4294967296

/-- The `replace` body of the `pick` rule: empty argument list → ""; otherwise
seed = stable hash of `"${chatIdHash}-${rawContentHash}-${offset}"` where
`rawContentHash` is the stable hash of the full document, and the selection is
`args[Math.floor(rng() * args.length)]`. The chat-id hash (`getChatIdHash()`,
cached in chat metadata) is taken as an explicit input. -/
def pickReplace (chatIdHash : Nat) (m : MacroReplaceArgs) : String :=
  if m.args.length = 0 then ""
  else
    let rawContentHash := getStringHash m.document
    let combinedSeedString :=
      toString chatIdHash ++ "-" ++ toString rawContentHash ++ "-" ++ toString m.offset
    let finalSeed := getStringHash combinedSeedString
    let randomIndex := mix32 finalSeed * m.args.length / 4294967296
    m.args.getD randomIndex ""

/-- The `pick` rule object `{name: 'pick', replace: ...}`. -/
def getPickReplaceMacro (chatIdHash : Nat) : MacroRule :=
  ⟨.single "pick", fun m => .ok (.str (pickReplace chatIdHash m))⟩

/-! ## CST accessors and fixed test rules used by the theorems -/

/-- The first parsed macro node of a document CST, if any. -/
def firstMacroNode (d : DocNode) : Option MacroNode :=
  d.items.findSome? (fun it => match it with
    | .macroItem m => some m
    | _ => none)

/-- The parsed argument nodes of a macro (empty when it has no argument
section). -/
def macroArgItems (m : MacroNode) : List ArgNode :=
  match m.args with
  | none => []
  | some a => a.items

/-- The source-order literal text of one argument fragment; `none` for a
nested macro (used to state facts about purely literal argument spans). -/
def fragLiteralText : Frag → Option String
  | .fnested _ => none
  | .fident s => some s
  | .funknown s => some s
  | .fcolon => some ":"

/-- The source-order literal text of a parsed argument span, defined when the
span contains no nested macro. -/
def argLiteralText (a : ArgNode) : Option String :=
  (a.frags.mapM fragLiteralText).map joinAll

/-- How many `Argument` items the first macro of the input parses to. -/
def firstMacroArgCount (input : String) : Option Nat :=
  match parseCst input with
  | .ok d => (firstMacroNode d).map (fun m => (macroArgItems m).length)
  | .error _ => none

/-- The literal texts of the first macro's parsed arguments. -/
def firstMacroArgTexts (input : String) : Option (List (Option String)) :=
  match parseCst input with
  | .ok d => (firstMacroNode d).map (fun m => (macroArgItems m).map argLiteralText)
  | .error _ => none

/-- The separator kind that opened the first macro's argument section. -/
def firstMacroSep (input : String) : Option SepKind :=
  match parseCst input with
  | .ok d => (firstMacroNode d).bind (fun m => (m.args).map (fun a =>
      match a with
      | .mk sep _ => sep))
  | .error _ => none

/-- A rule with a fixed name whose `replace` returns the constant string `R`. -/
def ruleConst (n R : String) : MacroRule :=
  ⟨.single n, fun _ => .ok (.str R)⟩

/-- A rule that returns its evaluated arguments joined with `"|"`, making the
argument strings handed to `replace` observable in the output. -/
def ruleEcho (n : String) : MacroRule :=
  ⟨.single n, fun m => .ok (.str (String.intercalate "|" m.args))⟩

/-- A rule whose `replace` always throws. -/
def ruleThrow (n : String) : MacroRule :=
  ⟨.single n, fun _ => .error "boom"⟩

/-! ## Auxiliary observers -/

/-- The visitor result of a document before the engine's final
`result || input` falsy fallback: the evaluated string when parsing succeeded,
the input itself otherwise. -/
def evalResult (input : String) (rules : List MacroRule) : String :=
  match parseCst input with
  | .ok d => evalDocNode rules input d
  | .error _ => input

/-! ## Claims -/

/-- C1, counterexample: the claim says the evaluated argument handed to the
enclosing macro's `replace` is the source-order concatenation of literal
fragments and nested macros' resolved values, so that for
`{{outer::word {{inner}}}}` (inner's rule returning "V") outer receives
"word V". The code's visitor instead pushes all nested-macro results before
all identifier fragments, so outer receives "Vword". -/
theorem c1_source_order_counterexample :
    parseDocument "\x7b\x7bouter::word \x7b\x7binner\x7d\x7d\x7d\x7d"
      [ruleConst "inner" "V", ruleEcho "outer"] = "Vword" ∧
    ("Vword" : String) ≠ "word V" := by
  exact ⟨rfl, by decide⟩

/-- C1, amended: the evaluated argument handed to the enclosing macro's
`replace` is the concatenation of the argument's fragments grouped by kind —
all nested macros' resolved values first, then all identifier fragments, then
all unknown-character fragments, then all colon fragments, each group in
source order, with inter-fragment whitespace dropped by the tokenizer — with
leading/trailing whitespace stripped. For `{{outer::word {{inner}}}}` with
inner's rule returning "V", outer receives "Vword". -/
theorem c1_argument_category_order :
    parseDocument "\x7b\x7bouter::word \x7b\x7binner\x7d\x7d\x7d\x7d"
      [ruleConst "inner" "V", ruleEcho "outer"] = "Vword" ∧
    parseDocument "\x7b\x7bouter::a:b.c\x7d\x7d" [ruleEcho "outer"] = "abc.:" ∧
    parseDocument "\x7b\x7bouter::  spaced  \x7d\x7d" [ruleEcho "outer"] = "spaced" := by
  exact ⟨rfl, rfl, rfl⟩

/-- C2, counterexample: the claim says a document consisting solely of a macro
whose rule returns `R` makes `parseDocument` return exactly `R`, including
when `R` is the empty string; but the engine's `result || input` fallback
returns the original document when the evaluation result is empty. -/
theorem c2_empty_replacement_counterexample :
    parseDocument "\x7b\x7bm\x7d\x7d" [ruleConst "m" ""] = "\x7b\x7bm\x7d\x7d" ∧
    ("\x7b\x7bm\x7d\x7d" : String) ≠ "" := by
  exact ⟨rfl, by decide⟩

/-- C2, amended: for a document consisting solely of `{{name::a::b}}` whose
matching rule returns `R` without throwing, `parseDocument` substitutes exactly
`R` with no surrounding delimiters and returns `R` — provided `R` is non-empty;
when `R` is the empty string the `result || input` fallback returns the
original document instead. -/
theorem c2_exact_substitution :
    (∀ R : String, R ≠ "" →
      parseDocument "\x7b\x7bname::a::b\x7d\x7d" [ruleConst "name" R] = R) ∧
    parseDocument "\x7b\x7bname::a::b\x7d\x7d" [ruleConst "name" ""] =
      "\x7b\x7bname::a::b\x7d\x7d" := by
  constructor
  · intro R hR
    have h : parseDocument "\x7b\x7bname::a::b\x7d\x7d" [ruleConst "name" R] =
        if R = "" then "\x7b\x7bname::a::b\x7d\x7d" else R := rfl
    rw [h, if_neg hR]
  · rfl

/-- C2 witness: the amended theorem applied at `R = "xyz"`. -/
theorem c2_exact_substitution_witness :
    parseDocument "\x7b\x7bname::a::b\x7d\x7d" [ruleConst "name" "xyz"] = "xyz" :=
  c2_exact_substitution.1 "xyz" (by decide)

/-- C3, counterexample: the claim says a single-colon separator yields exactly
one argument spanning to the macro's closing "}}", with every further colon —
including "::" sequences — kept literal. But the grammar's argument list is
always "::"-separated regardless of the opening separator, so
`{{legacy:a::b}}` parses to two arguments, not one. -/
theorem c3_single_colon_counterexample :
    firstMacroSep "\x7b\x7blegacy:a::b\x7d\x7d" = some .scolon ∧
    firstMacroArgCount "\x7b\x7blegacy:a::b\x7d\x7d" = some 2 ∧
    firstMacroArgCount "\x7b\x7blegacy:a::b\x7d\x7d" ≠ some 1 ∧
    firstMacroArgTexts "\x7b\x7blegacy:a::b\x7d\x7d" = some [some "a", some "b"] := by
  exact ⟨rfl, rfl, by decide, rfl⟩

/-- C3, amended: after a single-colon separator, single ':' characters inside
the span are kept as literal argument text and do not split the argument list
(`{{legacy:something:else}}` parses to the one argument "something:else"), but
a "::" sequence still separates a further argument (`{{legacy:a::b}}` parses
to the two arguments "a" and "b"); the span up to "}}" is a single argument
only when it contains no "::". -/
theorem c3_single_colon_amended :
    firstMacroSep "\x7b\x7blegacy:something:else\x7d\x7d" = some .scolon ∧
    firstMacroArgCount "\x7b\x7blegacy:something:else\x7d\x7d" = some 1 ∧
    firstMacroArgTexts "\x7b\x7blegacy:something:else\x7d\x7d" =
      some [some "something:else"] ∧
    firstMacroArgTexts "\x7b\x7blegacy:a::b\x7d\x7d" = some [some "a", some "b"] := by
  exact ⟨rfl, rfl, rfl, rfl⟩

/-- C4: whenever the parser reports one or more errors, `parseDocument`
performs no substitution and returns the original input unchanged (and, being
a total function, lets no exception escape); in particular the malformed
inputs "{{}}", "{{user" and "{{something::}}" produce parse errors and are
returned verbatim for every rule list. -/
theorem c4_parse_error_returns_input :
    (∀ (input : String) (rules : List MacroRule),
      parseSucceeds input = false → parseDocument input rules = input) ∧
    parseSucceeds "\x7b\x7b\x7d\x7d" = false ∧
    parseSucceeds "\x7b\x7buser" = false ∧
    parseSucceeds "\x7b\x7bsomething::\x7d\x7d" = false ∧
    (∀ rules, parseDocument "\x7b\x7b\x7d\x7d" rules = "\x7b\x7b\x7d\x7d") ∧
    (∀ rules, parseDocument "\x7b\x7buser" rules = "\x7b\x7buser") ∧
    (∀ rules, parseDocument "\x7b\x7bsomething::\x7d\x7d" rules =
      "\x7b\x7bsomething::\x7d\x7d") := by
  refine ⟨?_, rfl, rfl, rfl, fun _ => rfl, fun _ => rfl, fun _ => rfl⟩
  intro input rules h
  unfold parseSucceeds at h
  unfold parseDocument
  cases hp : parseCst input with
  | error e => rfl
  | ok d => rw [hp] at h; exact absurd h (by simp)

/-- C4 witness: the general part applied to the concrete malformed input
"{{}}" with an empty rule list. -/
theorem c4_parse_error_returns_input_witness :
    parseDocument "\x7b\x7b\x7d\x7d" [] = "\x7b\x7b\x7d\x7d" :=
  c4_parse_error_returns_input.1 "\x7b\x7b\x7d\x7d" [] rfl

/-- C10: for every input whose parse succeeds, if the fully evaluated document
string is empty then `parseDocument` returns the original input (the JS
`result || input` fallback); consequently a caller never obtains an empty
result from a non-empty input. -/
theorem c10_empty_result_falls_back_to_input :
    (∀ (input : String) (rules : List MacroRule),
      parseSucceeds input = true → evalResult input rules = "" →
      parseDocument input rules = input) ∧
    (∀ (input : String) (rules : List MacroRule),
      input ≠ "" → parseDocument input rules ≠ "") := by
  constructor
  · intro input rules h1 h2
    unfold evalResult at h2
    unfold parseDocument
    cases hp : parseCst input with
    | error e => rfl
    | ok d =>
      rw [hp] at h2
      have h3 : evalDocNode rules input d = "" := h2
      simp [h3]
  · intro input rules h
    unfold parseDocument
    cases hp : parseCst input with
    | error e => exact h
    | ok d =>
      by_cases hr : evalDocNode rules input d = ""
      · simp [hr, h]
      · simp [hr]

/-- C10 witness: a document that is a single macro whose rule returns the
empty string evaluates to "" and falls back to the original input; and a
non-empty plaintext input yields a non-empty result. -/
theorem c10_empty_result_falls_back_to_input_witness :
    parseDocument "\x7b\x7be\x7d\x7d" [ruleConst "e" ""] = "\x7b\x7be\x7d\x7d" ∧
    parseDocument "zz" [] ≠ "" :=
  ⟨c10_empty_result_falls_back_to_input.1 "\x7b\x7be\x7d\x7d" [ruleConst "e" ""] rfl rfl,
   c10_empty_result_falls_back_to_input.2 "zz" [] (by decide)⟩

/-- A rule reachable only through its alias list, used as a lookup witness. -/
def ruleAliased : MacroRule :=
  ⟨.aliases ["y", "alias"], fun _ => .ok (.str "2")⟩

/-- C6: the evaluator resolves a macro to the first rule in list order whose
name equals the identifier or whose alias list contains it
(`macros.find(...)`): whenever no rule of the prefix matches and `r` matches,
the lookup returns `r` — for every suffix `post`, so any later rule with the
same name or alias is never consulted for that macro. -/
theorem c6_first_matching_rule_wins :
    ∀ (pre post : List MacroRule) (r : MacroRule) (identifier : String),
      (∀ m ∈ pre, nameMatches m.name identifier = false) →
      nameMatches r.name identifier = true →
      resolveRule (pre ++ r :: post) identifier = some r := by
  intro pre post r identifier h1 h2
  induction pre with
  | nil =>
    simp only [List.nil_append, resolveRule]
    rw [List.find?_cons_of_pos (p := fun m => nameMatches m.name identifier) post h2]
  | cons m ms ih =>
    have hm := h1 m (List.mem_cons_self m ms)
    simp only [List.cons_append, resolveRule] at ih ⊢
    rw [List.find?_cons_of_neg (p := fun x => nameMatches x.name identifier)
      (ms ++ r :: post) (by simp [hm])]
    exact ih (fun x hx => h1 x (List.mem_cons_of_mem m hx))

/-- C6 witness: with a non-matching rule in front, the lookup for "alias"
selects the aliased rule (and would for any suffix, here the empty one). -/
theorem c6_first_matching_rule_wins_witness :
    resolveRule [ruleConst "x" "1", ruleAliased] "alias" = some ruleAliased :=
  c6_first_matching_rule_wins [ruleConst "x" "1"] [] ruleAliased "alias"
    (by intro m hm; rw [List.mem_singleton] at hm; subst hm; rfl) rfl

/-- C7: the value a matched rule's `replace` returns is coerced before
substitution per `sanitizeMacroValue`: strings pass through unchanged, null
and undefined become "", function and promise values are rejected (warned)
and become "", a date becomes its fixed normalized textual timestamp, and a
generic object is serialized to its structural textual form — agreeing with
the spec's coercion table on every value kind the spec mentions; the env-rule
closure (`envReplace`) applies exactly this coercion, and the engine
substitutes the coerced value. -/
theorem c7_value_coercion :
    (∀ (v : JSValue) (s : String),
      specValueCoercion v = some s → sanitizeMacroValue v = s) ∧
    (∀ s, sanitizeMacroValue (.str s) = s) ∧
    sanitizeMacroValue .nullv = "" ∧
    sanitizeMacroValue .undef = "" ∧
    sanitizeMacroValue .func = "" ∧
    sanitizeMacroValue .promise = "" ∧
    (∀ t, sanitizeMacroValue (.date t) = dateToISOString t) ∧
    (∀ fs, sanitizeMacroValue (.obj fs) = jsonStringify fs) ∧
    (∀ v nonce, envReplaceValue (.value v) nonce = sanitizeMacroValue v) ∧
    parseDocument "\x7b\x7bx\x7d\x7d" [envMacroRule "x" (.value (.date 86400123)) "n"] =
      dateToISOString 86400123 := by
  refine ⟨?_, fun s => rfl, rfl, rfl, rfl, rfl, fun t => rfl, fun fs => rfl,
    fun v nonce => rfl, rfl⟩
  intro v s h
  cases v <;> simp_all [specValueCoercion, sanitizeMacroValue]

/-- C7 witness: the spec-table conjunct applied to the promise value. -/
theorem c7_value_coercion_witness :
    sanitizeMacroValue .promise = "" :=
  c7_value_coercion.1 .promise "" rfl

/-- C8: `pick` is a pure function of the chat-id hash, document, offset and
argument list — two invocations with identical inputs return the same selected
argument — and the seed is recomputed from all four inputs, so changing the
chat-id hash alone, the document alone, the offset alone, or the argument
list alone is able to change the selection (witnessed by concrete instances
for each of the four inputs). -/
theorem c8_pick_deterministic_seed :
    (∀ (chatIdHash : Nat) (m : MacroReplaceArgs),
      pickReplace chatIdHash m = pickReplace chatIdHash m) ∧
    pickReplace 0 ⟨["a", "b"], 0, "doc"⟩ ≠ pickReplace 3 ⟨["a", "b"], 0, "doc"⟩ ∧
    pickReplace 0 ⟨["a", "b"], 0, "doc"⟩ ≠ pickReplace 0 ⟨["a", "b"], 0, "dog"⟩ ∧
    pickReplace 0 ⟨["a", "b"], 0, "doc"⟩ ≠ pickReplace 0 ⟨["a", "b"], 2, "doc"⟩ ∧
    pickReplace 0 ⟨["a", "b"], 0, "doc"⟩ ≠ pickReplace 0 ⟨["b", "a"], 0, "doc"⟩ := by
  exact ⟨fun _ _ => rfl, by decide, by decide, by decide, by decide⟩

/-! ## Helper lemmas: one evaluation step of the visitor's `macro` method -/

/-- Unfolding lemma: with no matching rule, a macro node evaluates to its
literal re-serialization built from the evaluated arguments. -/
theorem evalMacroNode_no_match (fuel : Nat) (rules : List MacroRule) (doc : String)
    (m : MacroNode) (h : resolveRule rules m.identifier = none) :
    evalMacroNode rules doc (fuel + 1) m =
      serializeMacro m.identifier (evalMacroArgs (evalMacroNode rules doc fuel) m) := by
  simp only [evalMacroNode, h]

/-- Unfolding lemma: when the resolved rule's `replace` throws, a macro node
evaluates to its literal re-serialization built from the evaluated
arguments. -/
theorem evalMacroNode_throw (fuel : Nat) (rules : List MacroRule) (doc : String)
    (m : MacroNode) (r : MacroRule) (err : String)
    (h1 : resolveRule rules m.identifier = some r)
    (h2 : r.replace ⟨evalMacroArgs (evalMacroNode rules doc fuel) m, m.startOffset, doc⟩ =
      .error err) :
    evalMacroNode rules doc (fuel + 1) m =
      serializeMacro m.identifier (evalMacroArgs (evalMacroNode rules doc fuel) m) := by
  simp only [evalMacroNode, h1, h2]

/-- Unfolding lemma: when the resolved rule's `replace` returns a value, a
macro node evaluates to the `String(...)` coercion of that value. -/
theorem evalMacroNode_ok (fuel : Nat) (rules : List MacroRule) (doc : String)
    (m : MacroNode) (r : MacroRule) (v : JSValue)
    (h1 : resolveRule rules m.identifier = some r)
    (h2 : r.replace ⟨evalMacroArgs (evalMacroNode rules doc fuel) m, m.startOffset, doc⟩ =
      .ok v) :
    evalMacroNode rules doc (fuel + 1) m = jsString v := by
  simp only [evalMacroNode, h1, h2]

/-- C5: a macro whose identifier matches no rule, or whose matched rule's
`replace` throws, is substituted by the literal serialization
`"{{" ++ identifier ++ ("::" ++ args joined by "::" when any) ++ "}}"` built
from the already-evaluated argument strings; the thrown error is caught (the
evaluator suffers no exception), and the remaining plaintext and macros of
the document are still evaluated normally (shown on `x {{bad}} {{good}}`,
where the unresolved `{{bad}}` passes through while `{{good}}` is replaced by
its rule's value for every rule list satisfying the hypotheses). -/
theorem c5_unresolved_serialization :
    (∀ (fuel : Nat) (rules : List MacroRule) (doc : String) (m : MacroNode),
      resolveRule rules m.identifier = none →
      evalMacroNode rules doc (fuel + 1) m =
        serializeMacro m.identifier (evalMacroArgs (evalMacroNode rules doc fuel) m)) ∧
    (∀ (fuel : Nat) (rules : List MacroRule) (doc : String) (m : MacroNode)
        (r : MacroRule) (err : String),
      resolveRule rules m.identifier = some r →
      r.replace ⟨evalMacroArgs (evalMacroNode rules doc fuel) m, m.startOffset, doc⟩ =
        .error err →
      evalMacroNode rules doc (fuel + 1) m =
        serializeMacro m.identifier (evalMacroArgs (evalMacroNode rules doc fuel) m)) ∧
    (∀ (rules : List MacroRule) (g : MacroRule),
      resolveRule rules "bad" = none →
      resolveRule rules "good" = some g →
      g.replace ⟨[], 10, "x \x7b\x7bbad\x7d\x7d \x7b\x7bgood\x7d\x7d"⟩ = .ok (.str "G") →
      parseDocument "x \x7b\x7bbad\x7d\x7d \x7b\x7bgood\x7d\x7d" rules =
        "x \x7b\x7bbad\x7d\x7d G") := by
  refine ⟨evalMacroNode_no_match, evalMacroNode_throw, ?_⟩
  intro rules g h1 h2 h3
  have hbad : evalMacroNode rules "x \x7b\x7bbad\x7d\x7d \x7b\x7bgood\x7d\x7d"
      (String.length "x \x7b\x7bbad\x7d\x7d \x7b\x7bgood\x7d\x7d" + 1)
      (MacroNode.mk "bad" 2 none) = serializeMacro "bad" [] :=
    evalMacroNode_no_match (String.length "x \x7b\x7bbad\x7d\x7d \x7b\x7bgood\x7d\x7d")
      rules "x \x7b\x7bbad\x7d\x7d \x7b\x7bgood\x7d\x7d" (MacroNode.mk "bad" 2 none) h1
  have hgood : evalMacroNode rules "x \x7b\x7bbad\x7d\x7d \x7b\x7bgood\x7d\x7d"
      (String.length "x \x7b\x7bbad\x7d\x7d \x7b\x7bgood\x7d\x7d" + 1)
      (MacroNode.mk "good" 10 none) = "G" :=
    evalMacroNode_ok (String.length "x \x7b\x7bbad\x7d\x7d \x7b\x7bgood\x7d\x7d")
      rules "x \x7b\x7bbad\x7d\x7d \x7b\x7bgood\x7d\x7d" (MacroNode.mk "good" 10 none) g
      (.str "G") h2 h3
  have hres : evalDocNode rules "x \x7b\x7bbad\x7d\x7d \x7b\x7bgood\x7d\x7d"
      (DocNode.mk [.plainItem "x " 0, .macroItem (MacroNode.mk "bad" 2 none),
        .plainItem " " 9, .macroItem (MacroNode.mk "good" 10 none)]) =
      "x " ++ (evalMacroNode rules "x \x7b\x7bbad\x7d\x7d \x7b\x7bgood\x7d\x7d"
          (String.length "x \x7b\x7bbad\x7d\x7d \x7b\x7bgood\x7d\x7d" + 1)
          (MacroNode.mk "bad" 2 none) ++
        (" " ++ evalMacroNode rules "x \x7b\x7bbad\x7d\x7d \x7b\x7bgood\x7d\x7d"
          (String.length "x \x7b\x7bbad\x7d\x7d \x7b\x7bgood\x7d\x7d" + 1)
          (MacroNode.mk "good" 10 none))) := rfl
  have hskel : parseDocument "x \x7b\x7bbad\x7d\x7d \x7b\x7bgood\x7d\x7d" rules =
      (if evalDocNode rules "x \x7b\x7bbad\x7d\x7d \x7b\x7bgood\x7d\x7d"
          (DocNode.mk [.plainItem "x " 0, .macroItem (MacroNode.mk "bad" 2 none),
            .plainItem " " 9, .macroItem (MacroNode.mk "good" 10 none)]) = ""
       then "x \x7b\x7bbad\x7d\x7d \x7b\x7bgood\x7d\x7d"
       else evalDocNode rules "x \x7b\x7bbad\x7d\x7d \x7b\x7bgood\x7d\x7d"
          (DocNode.mk [.plainItem "x " 0, .macroItem (MacroNode.mk "bad" 2 none),
            .plainItem " " 9, .macroItem (MacroNode.mk "good" 10 none)])) := rfl
  rw [hskel, hres, hbad, hgood]
  rfl

/-- C5 witness: the three parts at concrete inputs — an unmatched `{{bad}}`
serializes back, a throwing `{{boom}}` serializes back, and in
`x {{bad}} {{good}}` with only a `good → "G"` rule the rest of the document
is still evaluated. -/
theorem c5_unresolved_serialization_witness :
    evalMacroNode [] "" 1 (MacroNode.mk "bad" 0 none) = "\x7b\x7bbad\x7d\x7d" ∧
    evalMacroNode [ruleThrow "boom"] "" 1 (MacroNode.mk "boom" 0 none) =
      "\x7b\x7bboom\x7d\x7d" ∧
    parseDocument "x \x7b\x7bbad\x7d\x7d \x7b\x7bgood\x7d\x7d" [ruleConst "good" "G"] =
      "x \x7b\x7bbad\x7d\x7d G" :=
  ⟨c5_unresolved_serialization.1 0 [] "" (MacroNode.mk "bad" 0 none) rfl,
   c5_unresolved_serialization.2.1 0 [ruleThrow "boom"] "" (MacroNode.mk "boom" 0 none)
     (ruleThrow "boom") "boom" rfl rfl,
   c5_unresolved_serialization.2.2 [ruleConst "good" "G"] (ruleConst "good" "G")
     rfl rfl rfl⟩

/-- C9, counterexample: the claim says any output containing a reconstructed
literal tag (substituted because its rule threw) is a fixed point of
re-evaluation. With inner → "a b" and a throwing outer, the first run yields
`{{outer::a b}}`, but the second run re-tokenizes the argument span "a b"
into two identifier tokens whose whitespace is dropped, and the evaluator
rejoins them as "ab", producing the different tag `{{outer::ab}}`. -/
theorem c9_refailure_counterexample :
    parseDocument "\x7b\x7bouter::\x7b\x7binner\x7d\x7d\x7d\x7d"
      [ruleConst "inner" "a b", ruleThrow "outer"] = "\x7b\x7bouter::a b\x7d\x7d" ∧
    parseDocument "\x7b\x7bouter::a b\x7d\x7d"
      [ruleConst "inner" "a b", ruleThrow "outer"] = "\x7b\x7bouter::ab\x7d\x7d" ∧
    ("\x7b\x7bouter::ab\x7d\x7d" : String) ≠ "\x7b\x7bouter::a b\x7d\x7d" := by
  exact ⟨rfl, rfl, by decide⟩

/-- C9, amended: a reconstructed literal tag substituted for a throwing rule
is a fixed point of re-evaluation provided its evaluated arguments survive
re-tokenization unchanged (for example, each argument is a single contiguous
identifier word): for every rule list whose first "outer" match always
throws, re-running `parseDocument` on `{{outer::ab}}` reproduces
`{{outer::ab}}`, because the same rule fails again on the reconstructed
macro. -/
theorem c9_refailure_fixed_point :
    ∀ (rules : List MacroRule) (r : MacroRule),
      resolveRule rules "outer" = some r →
      (∀ m : MacroReplaceArgs, ∃ e, r.replace m = .error e) →
      parseDocument "\x7b\x7bouter::ab\x7d\x7d" rules = "\x7b\x7bouter::ab\x7d\x7d" := by
  intro rules r h1 h2
  obtain ⟨e, he⟩ := h2 ⟨["ab"], 0, "\x7b\x7bouter::ab\x7d\x7d"⟩
  have hm : evalMacroNode rules "\x7b\x7bouter::ab\x7d\x7d"
      (String.length "\x7b\x7bouter::ab\x7d\x7d" + 1)
      (MacroNode.mk "outer" 0 (some (ArgsNode.mk .dcolon [ArgNode.mk [.fident "ab"]]))) =
      serializeMacro "outer" ["ab"] :=
    evalMacroNode_throw (String.length "\x7b\x7bouter::ab\x7d\x7d") rules
      "\x7b\x7bouter::ab\x7d\x7d"
      (MacroNode.mk "outer" 0 (some (ArgsNode.mk .dcolon [ArgNode.mk [.fident "ab"]])))
      r e h1 he
  have hskel : parseDocument "\x7b\x7bouter::ab\x7d\x7d" rules =
      (if evalMacroNode rules "\x7b\x7bouter::ab\x7d\x7d"
          (String.length "\x7b\x7bouter::ab\x7d\x7d" + 1)
          (MacroNode.mk "outer" 0
            (some (ArgsNode.mk .dcolon [ArgNode.mk [.fident "ab"]]))) = ""
       then "\x7b\x7bouter::ab\x7d\x7d"
       else evalMacroNode rules "\x7b\x7bouter::ab\x7d\x7d"
          (String.length "\x7b\x7bouter::ab\x7d\x7d" + 1)
          (MacroNode.mk "outer" 0
            (some (ArgsNode.mk .dcolon [ArgNode.mk [.fident "ab"]])))) := rfl
  rw [hskel, hm]
  rfl

/-- C9 witness: the amended fixed-point theorem applied to the concrete
always-throwing rule list `[ruleThrow "outer"]`. -/
theorem c9_refailure_fixed_point_witness :
    parseDocument "\x7b\x7bouter::ab\x7d\x7d" [ruleThrow "outer"] =
      "\x7b\x7bouter::ab\x7d\x7d" :=
  c9_refailure_fixed_point [ruleThrow "outer"] (ruleThrow "outer") rfl
    (fun _ => ⟨"boom", rfl⟩)
